import Mathlib

/-!
Verification development for the linkedin-crawler-v2 repository.

The Go source is shallowly embedded: pure helper functions become Lean
functions, the SQLite-backed repositories become explicit state passing over
list-based tables, HTTP responses become an oracle from tokens to abstract
results, and the randomness used for token selection becomes an explicit
numeric parameter.  Machine floats produced by `encoding/json` are modelled
as exact rationals.
-/

namespace LinkedinCrawler

/-- Email status values, from `internal/database/email_repo.go`. -/
inductive EmailStatus
  | pending
  | successWithData
  | successWithoutData
  | failed
  | permanentFailed
deriving DecidableEq, Repr

/-- LinkedIn profile data, from `internal/models` (fields `User`,
`LinkedInURL`, `Location`, `ConnectionCount`). -/
structure ProfileData where
  user : String := ""
  linkedInUrl : String := ""
  location : String := ""
  connectionCount : String := ""
deriving DecidableEq, Repr

/-- The opening-brace character, written via its code point. -/
def lbrace : Char := Char.ofNat 123

/-- The closing-brace character, written via its code point. -/
def rbrace : Char := Char.ofNat 125

/-- The literal two-character string rendering an empty JSON object. -/
def emptyObjStr : String := String.mk [lbrace, rbrace]

/-- Abstract JSON values, the shape `encoding/json` produces when
unmarshalling into a Go string-keyed map: numbers are modelled as exact
rationals instead of IEEE doubles. -/
inductive Json
  | null
  | bool (b : Bool)
  | num (q : Rat)
  | str (s : String)
  | arr (elems : List Json)
  | obj (fields : List (String × Json))

/-- Serialisation of a string literal inside a JSON document. -/
def renderString (s : String) : List Char := '"' :: (s.toList ++ ['"'])

mutual

/-- Serialisation of a JSON value, modelling the raw response-body bytes the
Go code receives (the code applies `strings.Contains(body, "displayName")`
to these bytes in `doQueryProfile`). -/
def Json.render : Json → List Char
  | .null => "null".toList
  | .bool b => (cond b "true" "false").toList
  | .num q => (toString q).toList
  | .str s => renderString s
  | .arr es => '[' :: (renderElems es ++ [']'])
  | .obj fs => lbrace :: (renderFields fs ++ [rbrace])

/-- Serialisation of the elements of a JSON array, comma separated. -/
def renderElems : List Json → List Char
  | [] => []
  | [j] => j.render
  | j :: j' :: js => j.render ++ ',' :: renderElems (j' :: js)

/-- Serialisation of the bindings of a JSON object, comma separated. -/
def renderFields : List (String × Json) → List Char
  | [] => []
  | [kv] => renderString kv.1 ++ ':' :: kv.2.render
  | kv :: kv' :: fs => (renderString kv.1 ++ ':' :: kv.2.render) ++ ',' :: renderFields (kv' :: fs)

end

/-- Whether `s` starts with `pat`, character by character. -/
def listStartsWith : List Char → List Char → Bool
  | [], _ => true
  | _ :: _, [] => false
  | p :: ps, c :: cs => p = c && listStartsWith ps cs

/-- Whether `pat` occurs as a contiguous substring of `s`; this is the model
of Go's `strings.Contains`. -/
def containsSub (pat : List Char) : List Char → Bool
  | [] => pat.isEmpty
  | c :: rest => listStartsWith pat (c :: rest) || containsSub pat rest

/-- Lookup in a JSON object, later duplicate keys shadowing earlier ones as
`encoding/json` does when building a Go map. -/
def jsonLookup : List (String × Json) → String → Option Json
  | [], _ => none
  | kv :: rest, k =>
    match jsonLookup rest k with
    | some v => some v
    | none => if kv.1 = k then some kv.2 else none

/-- Go's `int(v)` conversion of a float: truncation toward zero, modelled on
exact rationals. -/
def floatToInt (q : Rat) : Int := if 0 ≤ q then ⌊q⌋ else -⌊-q⌋

/-- The string type assertion `p[k].(string)` with `""` as the zero value. -/
def strField (p : List (String × Json)) (k : String) : String :=
  match jsonLookup p k with
  | some (.str s) => s
  | _ => ""

/-- The `connectionCount` extraction in `ExtractProfileData`: a JSON string
is copied, a JSON number is truncated to an int and rendered with `%d`,
anything else leaves the field empty. -/
def connField (p : List (String × Json)) : String :=
  match jsonLookup p "connectionCount" with
  | some (.str s) => s
  | some (.num q) => toString (floatToInt q)
  | _ => ""

/-- Extraction of the four profile fields from a `persons[0]` object, from
`ExtractProfileData` in `internal/crawler/profile_extractor.go`. -/
def extractPerson (p : List (String × Json)) : ProfileData :=
  { user := strField p "displayName"
    linkedInUrl := strField p "linkedInUrl"
    connectionCount := connField p
    location := strField p "location" }

/-- The body of `ExtractProfileData` after a successful unmarshal: navigate
`persons`, require a non-empty array whose head is an object, else return
the empty profile. -/
def extractTop (fs : List (String × Json)) : ProfileData :=
  match jsonLookup fs "persons" with
  | some (.arr (Json.obj pf :: _)) => extractPerson pf
  | some (.arr (_ :: _)) => {}
  | _ => {}

/-- `ExtractProfileData` from `internal/crawler/profile_extractor.go`.
`none` models the `json.Unmarshal` error for a body whose top level cannot
unmarshal into a Go string-keyed map (unmarshalling JSON `null` into such a
map succeeds and leaves the map nil, so `null` yields the empty
profile). -/
def ExtractProfileData : Json → Option ProfileData
  | .obj fs => some (extractTop fs)
  | .null => some {}
  | _ => none

/-! ## In-memory credential pool, from `internal/crawler/token_manager.go` -/

/-- The in-memory token pool held inside `LinkedInCrawler`: the token list,
the `InvalidTokens` marking, and the `AllTokensFailed` latch. -/
structure Pool where
  tokens : List String
  invalid : List String := []
  allTokensFailed : Bool := false
deriving DecidableEq, Repr

/-- Whether the pool has marked `t` invalid (`lc.InvalidTokens[token]`). -/
def Pool.isInvalid (p : Pool) (t : String) : Bool := t ∈ p.invalid

/-- The valid tokens, in token-list order, as collected by `GetToken` and
`GetValidTokenCount`. -/
def Pool.validTokens (p : Pool) : List String :=
  p.tokens.filter (fun t => !(p.isInvalid t))

/-- `GetToken`: random selection among the valid tokens, with the random
draw modelled by the parameter `r`; falls back to `Tokens[0]` when no valid
token remains, and to `""` on an empty pool. -/
def Pool.getToken (p : Pool) (r : Nat) : String :=
  let valid := p.validTokens
  if valid.isEmpty then
    match p.tokens with
    | [] => ""
    | t :: _ => t
  else valid.getD (r % valid.length) ""

/-- `GetValidTokenCount`. -/
def Pool.getValidTokenCount (p : Pool) : Nat := p.validTokens.length

/-- `MarkTokenAsInvalid`. -/
def Pool.markTokenAsInvalid (p : Pool) (t : String) : Pool :=
  { p with invalid := t :: p.invalid }

/-- `CheckIfAllTokensInvalid`: counts the invalid-marked tokens and latches
`AllTokensFailed` when every token is marked. -/
def Pool.checkIfAllTokensInvalid (p : Pool) : Pool × Bool :=
  if (p.tokens.filter (fun t => p.isInvalid t)).length ≥ p.tokens.length then
    ({ p with allTokensFailed := true }, true)
  else (p, false)

/-! ## One HTTP query, from `doQueryProfile` -/

/-- The abstract result of one `doQueryProfile` call.  `transportErr` is a
failure of `lc.Client.Do` (status 0, error set); `httpErr c` is a non-200
response (error set); `ok body` is a 200 whose (valid-JSON) body was read;
`okBad raw` is a 200 whose body bytes do not unmarshal; `readErr` is a 200
whose body read failed. -/
inductive QueryResult
  | transportErr
  | httpErr (code : Nat)
  | ok (body : Json)
  | okBad (raw : List Char)
  | readErr

/-- The `statusCode` returned by `doQueryProfile`. -/
def QueryResult.status : QueryResult → Nat
  | .transportErr => 0
  | .httpErr c => c
  | .ok _ => 200
  | .okBad _ => 200
  | .readErr => 200

/-- Whether `doQueryProfile` returned a nil error. -/
def QueryResult.errIsNil : QueryResult → Bool
  | .ok _ => true
  | .okBad _ => true
  | _ => false

/-- The raw body bytes as far as the caller sees them (nil on error). -/
def QueryResult.bodyBytes : QueryResult → List Char
  | .ok b => b.render
  | .okBad raw => raw
  | _ => []

/-- The `hasProfile` flag: `strings.Contains(string(body), "displayName")`,
computed on the body bytes of a 200 response and false otherwise. -/
def QueryResult.hasProfile (r : QueryResult) : Bool :=
  containsSub "displayName".toList r.bodyBytes

/-- The outcome of `ExtractProfileData` applied to the body of this result:
`none` models a non-nil parse error. -/
def QueryResult.parse : QueryResult → Option ProfileData
  | .ok b => ExtractProfileData b
  | _ => none

/-! ## `QueryProfileWithRetryLogic`, from `internal/crawler/token_manager.go` -/

/-- State threaded through one `QueryProfileWithRetryLogic` call: the pool,
the tokens persistently invalidated through
`tokenStorage.RemoveTokenFromFile` (which is `TokenRepo.InvalidateToken` in
the database), the seconds slept, and the log of tokens actually sent to
`doQueryProfile`. -/
structure QueryState where
  pool : Pool
  persisted : List String := []
  sleptSeconds : Nat := 0
  calls : List String := []
deriving DecidableEq, Repr

/-- How one `QueryProfileWithRetryLogic` call returns. -/
inductive QueryReturn
  | allFailedEarly
  | allFailedAfterAuth (code : Nat)
  | res (r : QueryResult)

/-- `QueryProfileWithRetryLogic` minus the rate-limiter waits: the endpoint
behaviour for this email is the oracle `q`, and the two possible random
draws of `GetToken` are `r1` and `r2`. -/
def queryProfileWithRetryLogic (st : QueryState) (q : String → QueryResult)
    (r1 r2 : Nat) : QueryState × QueryReturn :=
  if st.pool.allTokensFailed then (st, .allFailedEarly)
  else
    let token := st.pool.getToken r1
    let res := q token
    let st := { st with calls := st.calls ++ [token] }
    if res.status = 429 then
      let activeTokenCount := st.pool.getValidTokenCount
      if activeTokenCount > 1 then
        let pool' := st.pool.markTokenAsInvalid token
        let newToken := pool'.getToken r2
        if newToken ≠ "" ∧ newToken ≠ token then
          ({ st with pool := pool', calls := st.calls ++ [newToken] }, .res (q newToken))
        else ({ st with pool := pool' }, .res res)
      else
        ({ st with sleptSeconds := st.sleptSeconds + 1,
                   calls := st.calls ++ [token] }, .res (q token))
    else if res.status = 401 ∨ res.status = 424 then
      let pool' := st.pool.markTokenAsInvalid token
      let persisted' := st.persisted ++ [token]
      let checked := pool'.checkIfAllTokensInvalid
      if checked.2 then
        ({ st with pool := checked.1, persisted := persisted' },
         .allFailedAfterAuth res.status)
      else
        let newToken := checked.1.getToken r2
        if newToken ≠ "" then
          ({ st with pool := checked.1, persisted := persisted',
                     calls := st.calls ++ [newToken] }, .res (q newToken))
        else ({ st with pool := checked.1, persisted := persisted' }, .res res)
    else (st, .res res)

/-! ## Token validation, from `ValidateExistingTokens` / `ValidateTokensBatch` -/

/-- The acceptance test in both validators:
`err == nil || statusCode == 429 || statusCode == 500`. -/
def validateAccept (r : QueryResult) : Bool :=
  r.errIsNil || r.status == 429 || r.status == 500

/-- Whether a rejected probe persists the invalidation
(`statusCode == 401 || statusCode == 424`). -/
def validatePersistReject (r : QueryResult) : Bool :=
  !validateAccept r && (r.status == 401 || r.status == 424)

/-- Result of a validation sweep: the surviving tokens and the tokens
removed persistently via `RemoveTokenFromFile`. -/
structure ValidateResult where
  valid : List String := []
  persistedInvalid : List String := []
deriving DecidableEq, Repr

/-- `ValidateExistingTokens`: probe each token once against the oracle `q`;
accept on nil error or status 429/500, and on rejection remove the token
from persistent storage exactly when the status is 401 or 424. -/
def validateExistingTokens (tokens : List String) (q : String → QueryResult) :
    ValidateResult :=
  tokens.foldl
    (fun acc t =>
      let r := q t
      if validateAccept r then { acc with valid := acc.valid ++ [t] }
      else if r.status == 401 || r.status == 424 then
        { acc with persistedInvalid := acc.persistedInvalid ++ [t] }
      else acc)
    {}

/-- `ValidateTokensBatch` (validation of freshly minted tokens): same
acceptance test, but never persists an invalidation. -/
def validateTokensBatch (tokens : List String) (q : String → QueryResult) :
    ValidateResult :=
  tokens.foldl
    (fun acc t =>
      if validateAccept (q t) then { acc with valid := acc.valid ++ [t] }
      else acc)
    {}

/-! ## Email repository writes, from `internal/database/email_repo.go` -/

/-- One write issued to the email repository. -/
inductive DbOp
  | updateWithProfile (email : String) (p : ProfileData)
  | updateStatus (email : String) (s : EmailStatus)
  | incrementRetry (email : String) (lastErr : String)
deriving DecidableEq, Repr

/-- One row of the `emails` table. -/
structure EmailRecord where
  email : String
  status : EmailStatus := .pending
  profileUser : String := ""
  profileUrl : String := ""
  profileLocation : String := ""
  profileConnections : String := ""
  retryCount : Nat := 0
  lastError : String := ""
deriving DecidableEq, Repr

/-- Effect of one repository write on one row: `UpdateEmailStatus`,
`UpdateEmailWithProfile` (which also sets status `success_with_data`), and
`IncrementRetryCount` (`retry_count = retry_count + 1`, `last_error = ?`). -/
def applyOp (rec : EmailRecord) : DbOp → EmailRecord
  | .updateStatus e s => if rec.email = e then { rec with status := s } else rec
  | .updateWithProfile e p =>
    if rec.email = e then
      { rec with status := .successWithData, profileUser := p.user,
                 profileUrl := p.linkedInUrl, profileLocation := p.location,
                 profileConnections := p.connectionCount }
    else rec
  | .incrementRetry e le =>
    if rec.email = e then
      { rec with retryCount := rec.retryCount + 1, lastError := le }
    else rec

/-- Effect of a sequence of repository writes on one row. -/
def applyOps (rec : EmailRecord) (ops : List DbOp) : EmailRecord :=
  ops.foldl applyOp rec

/-- Number of `IncrementRetryCount` calls in a write trace. -/
def countIncrements (ops : List DbOp) : Nat :=
  (ops.filter (fun op => match op with | .incrementRetry _ _ => true | _ => false)).length

/-! ## The per-email retry machine, from
`retryEmailWithNewLogic` in `internal/orchestrator/batch_processor.go` -/

/-- The line `WriteProfileToFile` appends to the enriched-output file:
`email|User|LinkedInURL|Location|ConnectionCount\n`. -/
def hitLine (email : String) (p : ProfileData) : String :=
  email ++ "|" ++ p.user ++ "|" ++ p.linkedInUrl ++ "|" ++ p.location ++ "|"
    ++ p.connectionCount ++ "\n"

/-- The displayName guard in the 200 branch:
`profile.User != "" && profile.User != "null" && profile.User != "{}"`. -/
def goodUser (u : String) : Bool :=
  u ≠ "" && u ≠ "null" && u ≠ emptyObjStr

/-- The HTTP-200 classification of `retryEmailWithNewLogic`: with a
`hasProfile` body that parses to a guarded-non-empty displayName, write
`UpdateEmailWithProfile` and append a hit line; in every other 200 case
write `UpdateEmailStatus(success_without_data)` and append nothing. -/
def classify200 (email : String) (res : QueryResult) : List DbOp × List String :=
  if res.hasProfile then
    match res.parse with
    | some profile =>
      if goodUser profile.user then
        ([.updateWithProfile email profile], [hitLine email profile])
      else ([.updateStatus email .successWithoutData], [])
    | none => ([.updateStatus email .successWithoutData], [])
  else ([.updateStatus email .successWithoutData], [])

/-- `retryEmailWithNewLogic email maxRetries`, with the result of the
`QueryProfileWithRetryLogic` call on attempt `i` given by the oracle
`attempts i`, and the shutdown flag and `AllTokensFailed` latch polled at
attempt `i` given by `shutdown i` and `allFailed i`.  `fuel` is the number
of attempts still available, `i` the index of the current attempt; the
call in `crawlWithCurrentTokens` starts it with `fuel = 5, i = 1`.  Returns
the success flag, the repository writes and the output-file appends of the
whole run (exhaustion writes `UpdateEmailStatus(failed)` followed by one
`IncrementRetryCount(email, "Failed after max retries")`; the early returns
on shutdown or all-failed write nothing). -/
def retryEmailWithNewLogic (email : String) (attempts : Nat → QueryResult)
    (shutdown allFailed : Nat → Bool) : Nat → Nat → Bool × List DbOp × List String
  | 0, _ =>
    (false, [.updateStatus email .failed,
             .incrementRetry email "Failed after max retries"], [])
  | fuel + 1, i =>
    if shutdown i then (false, [], [])
    else if allFailed i then (false, [], [])
    else
      let res := attempts i
      if res.status = 200 then
        let cls := classify200 email res
        (true, cls.1, cls.2)
      else retryEmailWithNewLogic email attempts shutdown allFailed fuel (i + 1)

/-! ## Email import, from `ImportEmailsFromFile` (storage layer) and
`ImportEmails` / `GetPendingEmails` (email repository) -/

/-- Go's `unicode.IsSpace` restricted to the ASCII white-space characters
relevant to `strings.TrimSpace` on these input files. -/
def isSpaceChar (c : Char) : Bool :=
  c = ' ' || c = '\t' || c = '\n' || c = '\r' || c = '\x0b' || c = '\x0c'

/-- `strings.TrimSpace`. -/
def trimSpace (l : List Char) : List Char :=
  ((l.dropWhile isSpaceChar).reverse.dropWhile isSpaceChar).reverse

/-- The characters after the first comma, i.e. `strings.SplitN(l, ",", 2)[1]`
for a line known to contain a comma. -/
def afterFirstComma : List Char → List Char
  | [] => []
  | c :: rest => if c = ',' then rest else afterFirstComma rest

/-- Whether the line starts with `#` (`strings.HasPrefix(l, "#")`). -/
def startsWithHash : List Char → Bool
  | [] => false
  | c :: _ => c = '#'

/-- The per-line entry computation of `ImportEmailsFromFile`: trim the line
and, when it contains a comma, keep only the trimmed text after the first
comma. -/
def extractEntry (line : List Char) : List Char :=
  let line := trimSpace line
  if ',' ∈ line then trimSpace (afterFirstComma line) else line

/-- The entry list `ImportEmailsFromFile` passes to `ImportEmails`: split
the file on newlines, compute each entry, and keep the non-empty entries
that do not start with `#` (note the test is applied to the extracted
entry, after the comma split). -/
def fileEntries (content : List Char) : List (List Char) :=
  ((content.splitOn '\n').map extractEntry).filter
    (fun e => !e.isEmpty && !startsWithHash e)

/-- The `emails` table: rows in `id` (insertion) order. -/
structure EmailsTable where
  rows : List (List Char × EmailStatus) := []
deriving DecidableEq, Repr

/-- `INSERT OR IGNORE INTO emails (email) VALUES (?)`: appended with status
`pending` unless the email is already present. -/
def EmailsTable.insertOrIgnore (tbl : EmailsTable) (e : List Char) : EmailsTable :=
  if tbl.rows.any (fun r => r.1 = e) then tbl
  else { rows := tbl.rows ++ [(e, .pending)] }

/-- `ImportEmails`: trim each entry again and insert-or-ignore the
non-empty entries that do not start with `#`. -/
def importEmails (tbl : EmailsTable) (emails : List (List Char)) : EmailsTable :=
  emails.foldl
    (fun t e =>
      let e := trimSpace e
      if !e.isEmpty && !startsWithHash e then t.insertOrIgnore e else t)
    tbl

/-- `ImportEmailsFromFile`: read the file content and import its entries. -/
def importEmailsFromFile (tbl : EmailsTable) (content : List Char) : EmailsTable :=
  importEmails tbl (fileEntries content)

/-- `GetPendingEmails`: the `pending` rows in `id` order, truncated when a
positive limit is given. -/
def getPendingEmails (tbl : EmailsTable) (limit : Nat) : List (List Char) :=
  let all := (tbl.rows.filter (fun r => r.2 = EmailStatus.pending)).map (·.1)
  if limit > 0 then all.take limit else all

/-- First-occurrence deduplication relative to an already-seen set: the
order INSERT OR IGNORE realises. -/
def addNew (seen : List (List Char)) : List (List Char) → List (List Char)
  | [] => []
  | e :: rest =>
    if e ∈ seen then addNew seen rest
    else e :: addNew (seen ++ [e]) rest

/-! ## Phase 2 retry sweep, from `RetryFailedEmails` (orchestrator retry
handler) -/

/-- The environment one phase-2 iteration observes: the remaining-email
list read at the top (`LoadEmailsFromFile`, i.e. `GetRemainingEmails`),
whether the token steps of the iteration succeeded (tokens loaded or
minted, validation non-empty, crawler initialised), and the remaining-email
list re-read after the crawl pass. -/
structure RetryIterEnv where
  loaded : List String
  tokensOk : Bool
  loadedAfter : List String

/-- The loop body of `RetryFailedEmails` as a trace of the iteration
indices on which a crawl pass actually ran: an empty remaining list or a
token failure returns before the pass; after the pass the loop breaks when
the remaining list is empty or has not shrunk. -/
def retryPhaseTrace (env : Nat → RetryIterEnv) : Nat → Nat → List Nat
  | 0, _ => []
  | fuel + 1, i =>
    if (env i).loaded.length = 0 then []
    else if !(env i).tokensOk then []
    else if (env i).loadedAfter.length = 0 then [i]
    else if (env i).loadedAfter.length ≥ (env i).loaded.length then [i]
    else i :: retryPhaseTrace env fuel (i + 1)

/-- `RetryFailedEmails`: `maxRetry = 7`, iterations numbered from 1. -/
def retryFailedEmails (env : Nat → RetryIterEnv) : List Nat :=
  retryPhaseTrace env 7 1

/-! ## Shutdown path, from `SetupSignalHandling` (`internal/utils/signal.go`)
and `SaveStateOnShutdown` (`internal/orchestrator/state_manager.go`) -/

/-- The in-memory tracking state `SaveStateOnShutdown` reads: the four
email maps (map iteration order modelled by list order) and the original
email list. -/
structure ShutdownState where
  withData : List String
  withoutData : List String
  failedEmails : List String
  permanentFailed : List String
  totalEmails : List String

/-- The failed-email append loop: each failed email is appended unless it
is already in the (growing) remaining list. -/
def appendFailed (remaining : List String) : List String → List String
  | [] => remaining
  | e :: rest =>
    if e ∈ remaining then appendFailed remaining rest
    else appendFailed (remaining ++ [e]) rest

/-- The remaining-email list `SaveStateOnShutdown` computes: every original
email not recorded as success-with-data, success-without-data or
permanent-failed, followed by the failed emails not already present. -/
def computeRemainingEmails (st : ShutdownState) : List String :=
  let base := st.totalEmails.filter
    (fun e => !(e ∈ st.withData : Bool) && !(e ∈ st.withoutData : Bool)
      && !(e ∈ st.permanentFailed : Bool))
  appendFailed base st.failedEmails

/-- `EmailStorage.WriteEmailsToFile` from the storage layer: a no-op that
returns nil because persistence is delegated to the database
("No longer needed - database handles persistence").  The emails-file state
is modelled as its list of lines. -/
def writeEmailsToFile (fs : List String) (_emails : List String) : List String :=
  fs

/-- `SaveStateOnShutdown`: compute the remaining list and hand it (or the
empty list) to `WriteEmailsToFile`; returns the resulting emails-file
state. -/
def saveStateOnShutdown (st : ShutdownState) (fs : List String) : List String :=
  if (computeRemainingEmails st).isEmpty then writeEmailsToFile fs []
  else writeEmailsToFile fs (computeRemainingEmails st)

/-- Observable outcome of the signal-handler goroutine in
`SetupSignalHandling`. -/
structure SignalOutcome where
  shutdownFlag : Nat
  fsAfter : List String
  sleptFor : Nat
  exited : Bool
deriving DecidableEq, Repr

/-- The handler body run on SIGINT/SIGTERM: atomically store 1 into the
shutdown flag, run the shutdown hook (`SaveStateOnShutdown`), sleep the
configured duration and exit. -/
def handleShutdownSignal (st : ShutdownState) (fs : List String)
    (sleepDuration : Nat) : SignalOutcome :=
  { shutdownFlag := 1
    fsAfter := saveStateOnShutdown st fs
    sleptFor := sleepDuration
    exited := true }

/-- The round-trip result as claim C6 words it: the deduplicated non-blank
entries of the lines that do not begin with `#`, a comma line contributing
the text after its first comma. -/
def claimImportResult (content : List Char) : List (List Char) :=
  addNew []
    (((((content.splitOn '\n').map trimSpace).filter
        (fun l => !startsWithHash l)).map
      (fun l => if ',' ∈ l then trimSpace (afterFirstComma l) else l)).filter
      (fun e => !e.isEmpty))

/-- The round-trip result as amended: the blank and `#` tests are applied
to the extracted entries (after the comma split), not to the raw lines. -/
def claimAmendedImportResult (content : List Char) : List (List Char) :=
  addNew [] (((content.splitOn '\n').map extractEntry).filter
    (fun e => !e.isEmpty && !startsWithHash e))

/-! ## Helper lemmas about substring search and rendering -/

theorem listStartsWith_append (pat r : List Char) :
    listStartsWith pat (pat ++ r) = true := by
  induction pat with
  | nil => simp [listStartsWith]
  | cons c cs ih => simp [listStartsWith, ih]

theorem containsSub_cons (pat s : List Char) (c : Char)
    (h : containsSub pat s = true) : containsSub pat (c :: s) = true := by
  simp [containsSub, h]

theorem containsSub_self_append (pat r : List Char) :
    containsSub pat (pat ++ r) = true := by
  cases pat with
  | nil => cases r <;> simp [containsSub, List.isEmpty, listStartsWith]
  | cons c cs =>
    have h := listStartsWith_append (c :: cs) r
    simp only [containsSub, List.cons_append] at h ⊢
    simp [h]

theorem containsSub_append_right (pat l r : List Char)
    (h : containsSub pat r = true) : containsSub pat (l ++ r) = true := by
  induction l with
  | nil => simpa using h
  | cons c cs ih => exact containsSub_cons pat (cs ++ r) c ih

theorem listStartsWith_extend (pat s r : List Char)
    (h : listStartsWith pat s = true) : listStartsWith pat (s ++ r) = true := by
  induction pat generalizing s with
  | nil => simp [listStartsWith]
  | cons p ps ih =>
    cases s with
    | nil => simp [listStartsWith] at h
    | cons c cs =>
      simp only [listStartsWith, Bool.and_eq_true] at h
      simp only [List.cons_append, listStartsWith, Bool.and_eq_true]
      exact ⟨h.1, ih cs h.2⟩

theorem containsSub_append_left (pat l r : List Char)
    (h : containsSub pat l = true) : containsSub pat (l ++ r) = true := by
  induction l with
  | nil =>
    simp only [containsSub, List.isEmpty_iff] at h
    subst h
    cases r <;> simp [containsSub, List.isEmpty, listStartsWith]
  | cons c cs ih =>
    simp only [containsSub, Bool.or_eq_true] at h
    rcases h with h | h
    · simp only [List.cons_append, containsSub, Bool.or_eq_true]
      exact Or.inl (listStartsWith_extend pat (c :: cs) r h)
    · exact containsSub_cons pat (cs ++ r) c (ih h)

theorem jsonLookup_mem {fs : List (String × Json)} {k : String} {v : Json}
    (h : jsonLookup fs k = some v) : (k, v) ∈ fs := by
  induction fs with
  | nil => simp [jsonLookup] at h
  | cons kv rest ih =>
    simp only [jsonLookup] at h
    rcases hrest : jsonLookup rest k with _ | w
    · rw [hrest] at h
      by_cases hk : kv.1 = k
      · simp only [hk, if_pos rfl] at h
        cases h
        have hkv : (k, kv.2) = kv := by rw [← hk]
        rw [hkv]
        exact List.mem_cons_self _ _
      · simp [hk] at h
    · rw [hrest] at h
      cases h
      exact List.mem_cons_of_mem _ (ih hrest)

theorem containsSub_renderFields {fs : List (String × Json)} {k : String}
    {v : Json} {pat : List Char} (hmem : (k, v) ∈ fs)
    (h : containsSub pat (renderString k ++ ':' :: v.render) = true) :
    containsSub pat (renderFields fs) = true := by
  induction fs with
  | nil => simp at hmem
  | cons kv rest ih =>
    rcases List.mem_cons.1 hmem with heq | hmem'
    · cases heq
      cases rest with
      | nil => simpa [renderFields] using h
      | cons kv' rest' =>
        show containsSub pat
          ((renderString k ++ ':' :: v.render) ++ ',' :: renderFields (kv' :: rest')) = true
        exact containsSub_append_left _ _ _ h
    · cases rest with
      | nil => simp at hmem'
      | cons kv' rest' =>
        show containsSub pat
          ((renderString kv.1 ++ ':' :: kv.2.render) ++ ',' :: renderFields (kv' :: rest')) = true
        exact containsSub_append_right _ _ _
          (containsSub_cons _ _ _ (ih hmem'))

theorem containsSub_renderElems {es : List Json} {j : Json} {pat : List Char}
    (hmem : j ∈ es) (h : containsSub pat j.render = true) :
    containsSub pat (renderElems es) = true := by
  induction es with
  | nil => simp at hmem
  | cons j' rest ih =>
    rcases List.mem_cons.1 hmem with heq | hmem'
    · cases heq
      cases rest with
      | nil => simpa [renderElems] using h
      | cons j'' rest' =>
        show containsSub pat (j.render ++ ',' :: renderElems (j'' :: rest')) = true
        exact containsSub_append_left _ _ _ h
    · cases rest with
      | nil => simp at hmem'
      | cons j'' rest' =>
        show containsSub pat (j'.render ++ ',' :: renderElems (j'' :: rest')) = true
        exact containsSub_append_right _ _ _
          (containsSub_cons _ _ _ (ih hmem'))

/-- If the displayName lookup inside a person object yields a string, the
serialised object contains the bytes `displayName`. -/
theorem containsSub_of_displayName {pf : List (String × Json)} {u : String}
    (h : jsonLookup pf "displayName" = some (.str u)) :
    containsSub "displayName".toList (Json.obj pf).render = true := by
  have hmem : ("displayName", Json.str u) ∈ pf := jsonLookup_mem h
  have h1 : containsSub "displayName".toList
      (renderString "displayName" ++ ':' :: (Json.str u).render) = true := by
    have key : renderString "displayName" ++ ':' :: (Json.str u).render
        = '"' :: ("displayName".toList ++ (['"'] ++ ':' :: (Json.str u).render)) := by
      simp [renderString]
    rw [key]
    exact containsSub_cons _ _ _ (containsSub_self_append _ _)
  have h2 := containsSub_renderFields hmem h1
  show containsSub "displayName".toList (lbrace :: (renderFields pf ++ [rbrace])) = true
  exact containsSub_cons _ _ _ (containsSub_append_left _ _ _ h2)

/-- If the field lookup `p[k].(string)` succeeds with a non-empty string,
the lookup really returned that JSON string. -/
theorem strField_eq_some {p : List (String × Json)} {k : String}
    (h : strField p k ≠ "") :
    jsonLookup p k = some (.str (strField p k)) := by
  unfold strField at *
  rcases hl : jsonLookup p k with _ | j
  · rw [hl] at h; simp at h
  · cases j <;> rw [hl] at h <;> simp_all

/-- A body that parses to a profile with a non-empty displayName contains
the bytes `displayName`, so `hasProfile` is true for it.  This links the
substring test of `doQueryProfile` to the parser used afterwards. -/
theorem hasProfile_of_parse {b : Json} {p : ProfileData}
    (hparse : ExtractProfileData b = some p) (huser : p.user ≠ "") :
    containsSub "displayName".toList b.render = true := by
  cases b with
  | obj fs =>
    simp only [ExtractProfileData, Option.some_inj] at hparse
    subst hparse
    unfold extractTop at huser
    rcases hp : jsonLookup fs "persons" with _ | j
    · rw [hp] at huser; exact absurd rfl huser
    · rw [hp] at huser
      cases j with
      | arr es =>
        cases es with
        | nil => exact absurd rfl huser
        | cons j0 rest =>
          cases j0 with
          | obj pf =>
            simp only [extractPerson] at huser
            have hdn : jsonLookup pf "displayName"
                = some (.str (strField pf "displayName")) :=
              strField_eq_some huser
            have hobj := containsSub_of_displayName hdn
            have hmem0 : (Json.obj pf) ∈ (Json.obj pf :: rest) := List.mem_cons_self _ _
            have helems := containsSub_renderElems hmem0 hobj
            have harr : containsSub "displayName".toList (Json.arr (Json.obj pf :: rest)).render = true := by
              show containsSub "displayName".toList
                ('[' :: (renderElems (Json.obj pf :: rest) ++ [']'])) = true
              exact containsSub_cons _ _ _ (containsSub_append_left _ _ _ helems)
            have hmemP : ("persons", Json.arr (Json.obj pf :: rest)) ∈ fs :=
              jsonLookup_mem hp
            have hfields := containsSub_renderFields hmemP
              (containsSub_append_right _ _ _ (containsSub_cons _ _ _ harr))
            show containsSub "displayName".toList (lbrace :: (renderFields fs ++ [rbrace])) = true
            exact containsSub_cons _ _ _ (containsSub_append_left _ _ _ hfields)
          | null => exact absurd rfl huser
          | bool b => exact absurd rfl huser
          | num q => exact absurd rfl huser
          | str s => exact absurd rfl huser
          | arr es' => exact absurd rfl huser
      | null => exact absurd rfl huser
      | bool b => exact absurd rfl huser
      | num q => exact absurd rfl huser
      | str s => exact absurd rfl huser
      | obj fs' => exact absurd rfl huser
  | null =>
    simp only [ExtractProfileData, Option.some_inj] at hparse
    subst hparse
    exact absurd rfl huser
  | bool b => simp [ExtractProfileData] at hparse
  | num q => simp [ExtractProfileData] at hparse
  | str s => simp [ExtractProfileData] at hparse
  | arr es => simp [ExtractProfileData] at hparse

/-! ## Lemmas about the per-email retry machine -/

theorem retryEmail_skip (email : String) (attempts : Nat → QueryResult)
    (shutdown allFailed : Nat → Bool) :
    ∀ m fuel i, m ≤ fuel →
    (∀ j, i ≤ j → j < i + m →
      shutdown j = false ∧ allFailed j = false ∧ (attempts j).status ≠ 200) →
    retryEmailWithNewLogic email attempts shutdown allFailed fuel i
      = retryEmailWithNewLogic email attempts shutdown allFailed (fuel - m) (i + m) := by
  intro m
  induction m with
  | zero => intro fuel i _ _; simp
  | succ m ih =>
    intro fuel i hm h
    cases fuel with
    | zero => omega
    | succ f =>
      have hi := h i (Nat.le_refl i) (by omega)
      have step : retryEmailWithNewLogic email attempts shutdown allFailed (f + 1) i
          = retryEmailWithNewLogic email attempts shutdown allFailed f (i + 1) := by
        simp [retryEmailWithNewLogic, hi.1, hi.2.1, hi.2.2]
      rw [step, ih f (i + 1) (by omega)
        (fun j hj1 hj2 => h j (by omega) (by omega))]
      have e1 : f - m = f + 1 - (m + 1) := by omega
      have e2 : i + 1 + m = i + (m + 1) := by omega
      rw [e1, e2]

theorem goodUser_ne_empty {u : String} (h : goodUser u = true) : u ≠ "" := by
  simp only [goodUser, Bool.and_eq_true, bne_iff_ne, ne_eq, decide_eq_true_eq] at h
  exact h.1.1

/-- C1: an email whose lookup returns HTTP 200 terminates as done with the
200 classification: with a well-parsed non-hollow displayName it writes
`UpdateEmailWithProfile` (hence status `success_with_data`) and appends the
`email|User|LinkedInURL|Location|ConnectionCount\n` line; every other 200
case writes `UpdateEmailStatus(success_without_data)` and appends
nothing. -/
theorem claim_C1 (email : String) (attempts : Nat → QueryResult)
    (shutdown allFailed : Nat → Bool) (k : Nat) (rec : EmailRecord)
    (hsd : ∀ j, shutdown j = false) (haf : ∀ j, allFailed j = false)
    (hk1 : 1 ≤ k) (hk5 : k ≤ 5)
    (hpre : ∀ j, 1 ≤ j → j < k → (attempts j).status ≠ 200)
    (h200 : (attempts k).status = 200)
    (hrec : rec.email = email) :
    retryEmailWithNewLogic email attempts shutdown allFailed 5 1
      = (true, (classify200 email (attempts k)).1, (classify200 email (attempts k)).2)
    ∧ (∀ p, (attempts k).parse = some p → goodUser p.user = true →
        classify200 email (attempts k)
          = ([.updateWithProfile email p], [hitLine email p])
        ∧ (applyOps rec [DbOp.updateWithProfile email p]).status = .successWithData)
    ∧ ((∀ p, (attempts k).parse = some p → goodUser p.user = false) →
        classify200 email (attempts k)
          = ([.updateStatus email .successWithoutData], [])
        ∧ (applyOps rec [DbOp.updateStatus email .successWithoutData]).status
            = .successWithoutData) := by
  refine ⟨?_, ?_, ?_⟩
  · have hskip := retryEmail_skip email attempts shutdown allFailed (k - 1) 5 1
      (by omega)
      (fun j hj1 hj2 => ⟨hsd j, haf j, hpre j hj1 (by omega)⟩)
    have e1 : 5 - (k - 1) = (4 - (k - 1)) + 1 := by omega
    have e2 : 1 + (k - 1) = k := by omega
    rw [hskip, e1, e2]
    simp [retryEmailWithNewLogic, hsd k, haf k, h200]
  · intro p hp hgood
    have hprof : (attempts k).hasProfile = true := by
      cases hres : attempts k with
      | ok b =>
        rw [hres] at hp
        simp only [QueryResult.parse] at hp
        simpa [QueryResult.hasProfile, QueryResult.bodyBytes]
          using hasProfile_of_parse hp (goodUser_ne_empty hgood)
      | transportErr => rw [hres] at hp; simp [QueryResult.parse] at hp
      | httpErr c => rw [hres] at hp; simp [QueryResult.parse] at hp
      | okBad raw => rw [hres] at hp; simp [QueryResult.parse] at hp
      | readErr => rw [hres] at hp; simp [QueryResult.parse] at hp
    constructor
    · simp [classify200, hprof, hp, hgood]
    · simp [applyOps, applyOp, hrec]
  · intro hbad
    constructor
    · by_cases hprof : (attempts k).hasProfile = true
      · rcases hp : (attempts k).parse with _ | p
        · simp [classify200, hprof, hp]
        · simp [classify200, hprof, hp, hbad p hp]
      · have hpf : (attempts k).hasProfile = false := by
          revert hprof; cases (attempts k).hasProfile <;> simp
        simp [classify200, hpf]
    · simp [applyOps, applyOp, hrec]

/-- Witness for C1 at a concrete 200 response whose body parses to
displayName `A` and linkedInUrl `B`. -/
theorem claim_C1_witness :
    retryEmailWithNewLogic "a@x.com"
      (fun _ => QueryResult.ok (.obj [("persons",
        .arr [.obj [("displayName", .str "A"), ("linkedInUrl", .str "B")]])]))
      (fun _ => false) (fun _ => false) 5 1
      = (true,
         [DbOp.updateWithProfile "a@x.com"
            { user := "A", linkedInUrl := "B", location := "", connectionCount := "" }],
         [hitLine "a@x.com"
            { user := "A", linkedInUrl := "B", location := "", connectionCount := "" }]) := by
  have h := claim_C1 "a@x.com"
    (fun _ => QueryResult.ok (.obj [("persons",
      .arr [.obj [("displayName", .str "A"), ("linkedInUrl", .str "B")]])]))
    (fun _ => false) (fun _ => false) 1 { email := "a@x.com" }
    (fun _ => rfl) (fun _ => rfl) (by decide) (by decide)
    (fun j hj1 hj2 => by omega) (by decide) rfl
  rw [h.1, (h.2.1 { user := "A", linkedInUrl := "B", location := "", connectionCount := "" }
    (by decide) (by decide)).1]

/-- C2: an email whose 5 attempts all end without HTTP 200 is marked
`failed` with `last_error = "Failed after max retries"`, and retry_count is
incremented exactly once for the whole run. -/
theorem claim_C2 (email : String) (attempts : Nat → QueryResult)
    (shutdown allFailed : Nat → Bool) (rec : EmailRecord)
    (hsd : ∀ j, shutdown j = false) (haf : ∀ j, allFailed j = false)
    (hfail : ∀ j, 1 ≤ j → j ≤ 5 → (attempts j).status ≠ 200)
    (hrec : rec.email = email) :
    retryEmailWithNewLogic email attempts shutdown allFailed 5 1
      = (false, [.updateStatus email .failed,
                 .incrementRetry email "Failed after max retries"], [])
    ∧ countIncrements [DbOp.updateStatus email .failed,
        DbOp.incrementRetry email "Failed after max retries"] = 1
    ∧ (applyOps rec [DbOp.updateStatus email .failed,
        DbOp.incrementRetry email "Failed after max retries"]).status = .failed
    ∧ (applyOps rec [DbOp.updateStatus email .failed,
        DbOp.incrementRetry email "Failed after max retries"]).retryCount
        = rec.retryCount + 1
    ∧ (applyOps rec [DbOp.updateStatus email .failed,
        DbOp.incrementRetry email "Failed after max retries"]).lastError
        = "Failed after max retries" := by
  refine ⟨?_, by simp [countIncrements], ?_, ?_, ?_⟩
  · have hskip := retryEmail_skip email attempts shutdown allFailed 5 5 1
      (Nat.le_refl 5)
      (fun j hj1 hj2 => ⟨hsd j, haf j, hfail j hj1 (by omega)⟩)
    rw [hskip]
    rfl
  all_goals simp [applyOps, applyOp, hrec]

/-- Witness for C2: five consecutive HTTP 500 results. -/
theorem claim_C2_witness :
    retryEmailWithNewLogic "e@x.com" (fun _ => QueryResult.httpErr 500)
      (fun _ => false) (fun _ => false) 5 1
      = (false, [DbOp.updateStatus "e@x.com" .failed,
                 DbOp.incrementRetry "e@x.com" "Failed after max retries"], [])
    ∧ (applyOps { email := "e@x.com" } [DbOp.updateStatus "e@x.com" .failed,
        DbOp.incrementRetry "e@x.com" "Failed after max retries"]).retryCount
        = 0 + 1 := by
  have h := claim_C2 "e@x.com" (fun _ => QueryResult.httpErr 500)
    (fun _ => false) (fun _ => false) { email := "e@x.com" }
    (fun _ => rfl) (fun _ => rfl)
    (fun j _ _ => by show (QueryResult.httpErr 500).status ≠ 200; decide) rfl
  exact ⟨h.1, h.2.2.2.1⟩

/-! ## Lemmas about the credential pool -/

theorem getToken_mem_valid {p : Pool} (h : p.validTokens ≠ []) (r : Nat) :
    p.getToken r ∈ p.validTokens := by
  unfold Pool.getToken
  have hne : p.validTokens.isEmpty = false := by
    simp [List.isEmpty_iff, h]
  have hlt : r % p.validTokens.length < p.validTokens.length :=
    Nat.mod_lt _ (List.length_pos.2 h)
  simp only [hne, Bool.false_eq_true, if_false]
  rw [List.getD_eq_getElem p.validTokens "" hlt]
  exact List.getElem_mem hlt

theorem mem_valid_not_invalid {p : Pool} {x : String}
    (h : x ∈ p.validTokens) : p.isInvalid x = false := by
  unfold Pool.validTokens at h
  have := (List.mem_filter.1 h).2
  simpa using this

theorem mem_valid_mem_tokens {p : Pool} {x : String}
    (h : x ∈ p.validTokens) : x ∈ p.tokens :=
  (List.mem_filter.1 h).1

theorem validTokens_markInvalid (p : Pool) (t : String) :
    (p.markTokenAsInvalid t).validTokens
      = p.validTokens.filter (fun x => x ≠ t) := by
  unfold Pool.validTokens Pool.markTokenAsInvalid Pool.isInvalid
  rw [List.filter_filter]
  apply List.filter_congr
  intro x _
  by_cases hx : x = t <;> by_cases hv : x ∈ p.invalid <;> simp [hx, hv]

theorem all_eq_length_le_one {l : List String} {t : String}
    (hall : ∀ x ∈ l, x = t) (hnd : l.Nodup) : l.length ≤ 1 := by
  cases l with
  | nil => simp
  | cons a l' =>
    cases l' with
    | nil => simp
    | cons b l'' =>
      have ha : a = t := hall a (by simp)
      have hb : b = t := hall b (by simp)
      rw [List.nodup_cons] at hnd
      exact absurd (by rw [ha, hb]; exact List.mem_cons_self _ _) hnd.1

theorem filter_ne_nonempty {l : List String} {t : String} (hnd : l.Nodup)
    (hlen : 1 < l.length) : l.filter (fun x => x ≠ t) ≠ [] := by
  intro hnil
  rw [List.filter_eq_nil_iff] at hnil
  have hall : ∀ x ∈ l, x = t := by
    intro x hx
    have := hnil x hx
    simpa using this
  exact absurd (all_eq_length_le_one hall hnd) (by omega)

/-- C3: on HTTP 429 with more than one valid credential, the current
credential is invalidated in the pool only (the persisted-invalid set is
unchanged) and the query is reissued inside the same
`QueryProfileWithRetryLogic` call with a different credential; with exactly
one valid credential, the machine sleeps one second and reissues with the
same credential, leaving the pool untouched. -/
theorem claim_C3 (st : QueryState) (q : String → QueryResult) (r1 r2 : Nat)
    (hAll : st.pool.allTokensFailed = false)
    (hnd : st.pool.tokens.Nodup)
    (hempty : "" ∉ st.pool.tokens)
    (h429 : (q (st.pool.getToken r1)).status = 429) :
    (st.pool.getValidTokenCount > 1 →
      queryProfileWithRetryLogic st q r1 r2
        = ({ pool := st.pool.markTokenAsInvalid (st.pool.getToken r1),
             persisted := st.persisted,
             sleptSeconds := st.sleptSeconds,
             calls := st.calls ++ [st.pool.getToken r1,
               (st.pool.markTokenAsInvalid (st.pool.getToken r1)).getToken r2] },
           .res (q ((st.pool.markTokenAsInvalid (st.pool.getToken r1)).getToken r2)))
      ∧ (st.pool.markTokenAsInvalid (st.pool.getToken r1)).getToken r2
          ≠ st.pool.getToken r1
      ∧ (st.pool.markTokenAsInvalid (st.pool.getToken r1)).isInvalid
          (st.pool.getToken r1) = true)
    ∧ (st.pool.getValidTokenCount = 1 →
      queryProfileWithRetryLogic st q r1 r2
        = ({ pool := st.pool,
             persisted := st.persisted,
             sleptSeconds := st.sleptSeconds + 1,
             calls := st.calls ++ [st.pool.getToken r1, st.pool.getToken r1] },
           .res (q (st.pool.getToken r1)))) := by
  constructor
  · intro hcnt
    have hvne : st.pool.validTokens ≠ [] := by
      unfold Pool.getValidTokenCount at hcnt
      exact List.ne_nil_of_length_pos (by omega)
    have hlen : 1 < st.pool.validTokens.length := hcnt
    set token := st.pool.getToken r1 with htokdef
    have hval' : (st.pool.markTokenAsInvalid token).validTokens
        = st.pool.validTokens.filter (fun x => x ≠ token) :=
      validTokens_markInvalid st.pool token
    have hfilne : st.pool.validTokens.filter (fun x => x ≠ token) ≠ [] :=
      filter_ne_nonempty (hnd.filter _) hlen
    have hvne' : (st.pool.markTokenAsInvalid token).validTokens ≠ [] := by
      rw [hval']; exact hfilne
    have hnewmem := getToken_mem_valid hvne' r2
    rw [hval'] at hnewmem
    have hnew := List.mem_filter.1 hnewmem
    have hnetok : (st.pool.markTokenAsInvalid token).getToken r2 ≠ token := by
      simpa using hnew.2
    have hneempty : (st.pool.markTokenAsInvalid token).getToken r2 ≠ "" := by
      intro habs
      exact hempty (habs ▸ mem_valid_mem_tokens hnew.1)
    refine ⟨?_, hnetok, by simp [Pool.markTokenAsInvalid, Pool.isInvalid]⟩
    simp only [queryProfileWithRetryLogic]
    simp [hAll, ← htokdef, h429, hcnt, hneempty, hnetok]
  · intro hcnt
    simp only [queryProfileWithRetryLogic, hAll, Bool.false_eq_true, if_false,
      h429, if_pos rfl, hcnt]
    norm_num

/-- Witness for C3, covering both arms: a two-credential pool where the
first pick answers 429, and a one-credential pool answering 429. -/
theorem claim_C3_witness :
    (queryProfileWithRetryLogic
        { pool := { tokens := ["t1", "t2"] } }
        (fun t => if t = "t1" then .httpErr 429 else .ok .null) 0 0
      = ({ pool := { tokens := ["t1", "t2"], invalid := ["t1"] },
           persisted := [], sleptSeconds := 0, calls := ["t1", "t2"] },
         .res (.ok .null))
      ∧ queryProfileWithRetryLogic
          { pool := { tokens := ["t1"] } }
          (fun _ => .httpErr 429) 0 0
        = ({ pool := { tokens := ["t1"] },
             persisted := [], sleptSeconds := 1, calls := ["t1", "t1"] },
           .res (.httpErr 429))) := by
  have h2 := claim_C3 { pool := { tokens := ["t1", "t2"] } }
    (fun t => if t = "t1" then .httpErr 429 else .ok .null) 0 0
    (by decide) (by decide) (by decide) (by decide)
  have h1 := claim_C3 { pool := { tokens := ["t1"] } }
    (fun _ => .httpErr 429) 0 0
    (by decide) (by decide) (by decide) (by decide)
  refine ⟨?_, ?_⟩
  · have := (h2.1 (by decide)).1
    rw [this]
    rfl
  · have := h1.2 (by decide)
    rw [this]
    rfl

/-! ## Validator classification (C4) -/

theorem validateExisting_aux (q : String → QueryResult) :
    ∀ (tokens : List String) (acc : ValidateResult),
    tokens.foldl
      (fun acc t =>
        let r := q t
        if validateAccept r then { acc with valid := acc.valid ++ [t] }
        else if r.status == 401 || r.status == 424 then
          { acc with persistedInvalid := acc.persistedInvalid ++ [t] }
        else acc)
      acc
    = { valid := acc.valid ++ tokens.filter (fun t => validateAccept (q t)),
        persistedInvalid :=
          acc.persistedInvalid ++ tokens.filter (fun t => validatePersistReject (q t)) } := by
  intro tokens
  induction tokens with
  | nil => intro acc; simp
  | cons t ts ih =>
    intro acc
    rw [List.foldl_cons, ih]
    by_cases hacc : validateAccept (q t)
    · have hrej : validatePersistReject (q t) = false := by
        simp [validatePersistReject, hacc]
      simp [hacc, hrej]
    · have hacc' : validateAccept (q t) = false := by
        revert hacc; cases validateAccept (q t) <;> simp
      by_cases hst : ((q t).status == 401 || (q t).status == 424) = true
      · have hrej : validatePersistReject (q t) = true := by
          simp [validatePersistReject, hacc', hst]
        simp [hacc', hst, hrej]
      · have hst' : ((q t).status == 401 || (q t).status == 424) = false := by
          revert hst; cases ((q t).status == 401 || (q t).status == 424) <;> simp
        have hrej : validatePersistReject (q t) = false := by
          simp [validatePersistReject, hacc', hst']
        simp [hacc', hst', hrej]

theorem validateBatch_aux (q : String → QueryResult) :
    ∀ (tokens : List String) (acc : ValidateResult),
    tokens.foldl
      (fun acc t =>
        if validateAccept (q t) then { acc with valid := acc.valid ++ [t] }
        else acc)
      acc
    = { acc with valid := acc.valid ++ tokens.filter (fun t => validateAccept (q t)) } := by
  intro tokens
  induction tokens with
  | nil => intro acc; simp
  | cons t ts ih =>
    intro acc
    by_cases hacc : validateAccept (q t)
    · simp [List.foldl_cons, hacc, ih]
    · have hacc' : validateAccept (q t) = false := by
        revert hacc; cases validateAccept (q t) <;> simp
      simp [List.foldl_cons, hacc', ih]

/-- C4 (amended): a probed credential is accepted exactly when the probe
returned a nil error (an HTTP 200 whose body was read) or HTTP 429 or 500;
a transport error is rejected.  The rejection persists
(`RemoveTokenFromFile`, i.e. `InvalidateToken`) exactly when the status is
401 or 424, and the fresh-token validator never persists. -/
theorem claim_C4_amended (tokens : List String) (q : String → QueryResult) :
    validateExistingTokens tokens q
      = { valid := tokens.filter (fun t => validateAccept (q t)),
          persistedInvalid := tokens.filter (fun t => validatePersistReject (q t)) }
    ∧ validateTokensBatch tokens q
      = { valid := tokens.filter (fun t => validateAccept (q t)),
          persistedInvalid := [] }
    ∧ validateAccept QueryResult.transportErr = false
    ∧ (∀ b, validateAccept (QueryResult.ok b) = true)
    ∧ validateAccept (QueryResult.httpErr 429) = true
    ∧ validateAccept (QueryResult.httpErr 500) = true
    ∧ (∀ r : QueryResult, validatePersistReject r = true
        ↔ (r.status = 401 ∨ r.status = 424)) := by
  refine ⟨?_, ?_, by decide, fun b => rfl, by decide, by decide, ?_⟩
  · have h := validateExisting_aux q tokens {}
    simpa [validateExistingTokens] using h
  · have h := validateBatch_aux q tokens {}
    simpa [validateTokensBatch] using h
  · intro r
    cases r with
    | transportErr => simp [validatePersistReject, validateAccept, QueryResult.status, QueryResult.errIsNil]
    | readErr => simp [validatePersistReject, validateAccept, QueryResult.status, QueryResult.errIsNil]
    | ok b => simp [validatePersistReject, validateAccept, QueryResult.status, QueryResult.errIsNil]
    | okBad raw => simp [validatePersistReject, validateAccept, QueryResult.status, QueryResult.errIsNil]
    | httpErr c =>
      simp [validatePersistReject, validateAccept, QueryResult.status,
        QueryResult.errIsNil]
      omega

/-- Counterexample to C4 as stated: a probe that ends in a transport error
is NOT accepted as valid by `ValidateExistingTokens`. -/
theorem claim_C4_counterexample :
    "t" ∉ (validateExistingTokens ["t"] (fun _ => QueryResult.transportErr)).valid
    ∧ (validateExistingTokens ["t"] (fun _ => QueryResult.transportErr))
        = { valid := [], persistedInvalid := [] } := by
  constructor
  · decide
  · decide

/-- Witness for C4 at a concrete mixed batch: one token accepted via 200,
one rejected-and-persisted via 401, one rejected without persistence via a
transport error. -/
theorem claim_C4_witness :
    validateExistingTokens ["a", "b", "c"]
      (fun t => if t = "a" then .ok .null
        else if t = "b" then .httpErr 401 else .transportErr)
      = { valid := ["a"], persistedInvalid := ["b"] } := by
  have h := claim_C4_amended ["a", "b", "c"]
    (fun t => if t = "a" then .ok .null
      else if t = "b" then .httpErr 401 else .transportErr)
  rw [h.1]
  rfl

/-! ## Pool selection (C5) -/

/-- C5 (amended): whenever at least one non-invalidated credential remains,
`GetToken` returns a non-invalidated one; the original claim fails on the
`Tokens[0]` fallback taken when every credential is invalidated. -/
theorem claim_C5_amended (p : Pool) (r : Nat) (h : p.validTokens ≠ []) :
    p.isInvalid (p.getToken r) = false :=
  mem_valid_not_invalid (getToken_mem_valid h r)

/-- Counterexample to C5 as stated: with the single credential `t` marked
invalid in the pool, `GetToken` still returns `t`. -/
theorem claim_C5_counterexample :
    Pool.getToken { tokens := ["t"], invalid := ["t"] } 0 = "t"
    ∧ Pool.isInvalid { tokens := ["t"], invalid := ["t"] } "t" = true := by
  constructor
  · decide
  · decide

/-- Witness for C5 on a pool with one invalidated and one valid entry. -/
theorem claim_C5_witness :
    (Pool.validTokens { tokens := ["a", "b"], invalid := ["a"] } ≠ [])
    ∧ Pool.isInvalid { tokens := ["a", "b"], invalid := ["a"] }
        (Pool.getToken { tokens := ["a", "b"], invalid := ["a"] } 0) = false :=
  ⟨by decide, claim_C5_amended { tokens := ["a", "b"], invalid := ["a"] } 0 (by decide)⟩

/-! ## Import round trip (C6) -/

theorem dropWhile_exists (p : Char → Bool) :
    ∀ l : List Char, ∃ s, s ++ l.dropWhile p = l := by
  intro l
  induction l with
  | nil => exact ⟨[], rfl⟩
  | cons c cs ih =>
    by_cases hc : p c
    · obtain ⟨s, hs⟩ := ih
      exact ⟨c :: s, by simp [List.dropWhile_cons, hc, hs]⟩
    · exact ⟨[], by simp [List.dropWhile_cons, hc]⟩

theorem dropWhile_idem (p : Char → Bool) (l : List Char) :
    (l.dropWhile p).dropWhile p = l.dropWhile p := by
  induction l with
  | nil => rfl
  | cons c cs ih =>
    by_cases hc : p c
    · simp [List.dropWhile_cons, hc, ih]
    · simp [List.dropWhile_cons, hc]

theorem dropWhile_length_le (p : Char → Bool) (l : List Char) :
    (l.dropWhile p).length ≤ l.length := by
  obtain ⟨s, hs⟩ := dropWhile_exists p l
  have h := congrArg List.length hs
  simp only [List.length_append] at h
  omega

theorem dropWhile_head_false {p : Char → Bool} {l : List Char} {x : Char}
    {xs : List Char} (hl : l.dropWhile p = l) (hx : l = x :: xs) :
    p x = false := by
  subst hx
  by_cases hc : p x
  · rw [List.dropWhile_cons, if_pos hc] at hl
    have hlen := dropWhile_length_le p xs
    rw [hl] at hlen
    simp at hlen
  · simpa using hc

theorem trimSpace_fixed_of (l : List Char) :
    trimSpace (trimSpace l) = trimSpace l := by
  set m := l.dropWhile isSpaceChar with hm
  have hmfix : m.dropWhile isSpaceChar = m := by rw [hm]; exact dropWhile_idem _ l
  have htrev : (trimSpace l).reverse = m.reverse.dropWhile isSpaceChar := by
    unfold trimSpace
    rw [← hm, List.reverse_reverse]
  have hA : (trimSpace l).dropWhile isSpaceChar = trimSpace l := by
    obtain ⟨s, hs⟩ := dropWhile_exists isSpaceChar m.reverse
    have ht : trimSpace l ++ s.reverse = m := by
      have := congrArg List.reverse hs
      simp only [List.reverse_append] at this
      rw [← htrev] at this
      simpa [List.reverse_reverse] using this
    cases htls : trimSpace l with
    | nil => rfl
    | cons x xs =>
      have hxeq : m = x :: (xs ++ s.reverse) := by
        rw [← ht, htls]; simp
      have hx : isSpaceChar x = false := dropWhile_head_false hmfix hxeq
      rw [List.dropWhile_cons, if_neg (by simp [hx])]
  show (((trimSpace l).dropWhile isSpaceChar).reverse.dropWhile isSpaceChar).reverse
    = trimSpace l
  rw [hA, htrev, dropWhile_idem, ← htrev, List.reverse_reverse]

theorem extractEntry_trim_fixed (l : List Char) :
    trimSpace (extractEntry l) = extractEntry l := by
  unfold extractEntry
  by_cases hc : ',' ∈ trimSpace l
  · simp only [hc, if_pos]
    exact trimSpace_fixed_of _
  · simp only [hc, if_neg, if_false]
    exact trimSpace_fixed_of _

theorem importEmails_eq_fold :
    ∀ (es : List (List Char)) (tbl : EmailsTable),
    (∀ e ∈ es, trimSpace e = e ∧ (!e.isEmpty && !startsWithHash e) = true) →
    importEmails tbl es = es.foldl EmailsTable.insertOrIgnore tbl := by
  intro es
  induction es with
  | nil => intro tbl _; rfl
  | cons e es' ih =>
    intro tbl h
    have he := h e (by simp)
    unfold importEmails
    rw [List.foldl_cons, List.foldl_cons]
    show List.foldl _ (if !(trimSpace e).isEmpty && !startsWithHash (trimSpace e)
      then tbl.insertOrIgnore (trimSpace e) else tbl) es'
      = List.foldl EmailsTable.insertOrIgnore (tbl.insertOrIgnore e) es'
    rw [he.1, he.2, if_pos rfl]
    exact ih (tbl.insertOrIgnore e) (fun x hx => h x (by simp [hx]))

theorem fold_insertOrIgnore_rows :
    ∀ (es : List (List Char)) (tbl : EmailsTable),
    (es.foldl EmailsTable.insertOrIgnore tbl).rows
      = tbl.rows ++ (addNew (tbl.rows.map (·.1)) es).map
          (fun e => (e, EmailStatus.pending)) := by
  intro es
  induction es with
  | nil => intro tbl; simp [addNew]
  | cons e es' ih =>
    intro tbl
    rw [List.foldl_cons]
    by_cases hmem : e ∈ tbl.rows.map (·.1)
    · have hany : tbl.rows.any (fun r => r.1 = e) = true := by
        rw [List.any_eq_true]
        obtain ⟨r, hr, hre⟩ := List.mem_map.1 hmem
        exact ⟨r, hr, by simp [hre]⟩
      have hins : tbl.insertOrIgnore e = tbl := by
        unfold EmailsTable.insertOrIgnore
        rw [if_pos hany]
      rw [hins, ih, addNew, if_pos hmem]
    · have hany : tbl.rows.any (fun r => r.1 = e) = false := by
        rw [Bool.eq_false_iff]
        intro habs
        rw [List.any_eq_true] at habs
        obtain ⟨r, hr, hre⟩ := habs
        exact hmem (List.mem_map.2 ⟨r, hr, by simpa using hre⟩)
      have hins : tbl.insertOrIgnore e
          = { rows := tbl.rows ++ [(e, EmailStatus.pending)] } := by
        unfold EmailsTable.insertOrIgnore
        rw [hany]
        simp
      rw [hins, ih]
      simp only [addNew, if_neg hmem]
      simp [List.map_append]

theorem getPending_fold_empty (es : List (List Char)) :
    getPendingEmails (es.foldl EmailsTable.insertOrIgnore {}) 0 = addNew [] es := by
  have h := fold_insertOrIgnore_rows es {}
  simp only [getPendingEmails, h]
  simp [List.filter_map, Function.comp_def]

/-- Counterexample to C6 as stated: the line `#a,b@x` begins with `#`, yet
the import keeps `b@x` because the `#` test runs on the post-comma entry. -/
theorem claim_C6_counterexample :
    getPendingEmails (importEmailsFromFile {} ("#a,b@x".toList)) 0
      = ["b@x".toList]
    ∧ claimImportResult ("#a,b@x".toList) = [] := by
  constructor
  · rfl
  · rfl

/-- C6 (amended): importing a file and reading the pending set with limit 0
returns exactly the first-occurrence-deduplicated entries, in file order,
where an entry is the trimmed text after the first comma of its trimmed
line (or the whole trimmed line), kept when it is non-blank and does not
itself begin with `#`. -/
theorem claim_C6_amended (content : List Char) :
    getPendingEmails (importEmailsFromFile {} content) 0
      = claimAmendedImportResult content := by
  unfold importEmailsFromFile claimAmendedImportResult
  have hentries : ∀ e ∈ fileEntries content,
      trimSpace e = e ∧ (!e.isEmpty && !startsWithHash e) = true := by
    intro e he
    unfold fileEntries at he
    have hf := List.mem_filter.1 he
    obtain ⟨line, _, hline⟩ := List.mem_map.1 hf.1
    exact ⟨hline ▸ extractEntry_trim_fixed line, hf.2⟩
  rw [importEmails_eq_fold _ _ hentries, getPending_fold_empty]
  rfl

/-! ## Parser claims (C7, C10) -/

/-- C7: the parser extracts displayName, linkedInUrl, location and
connectionCount from `persons[0]`; absent fields stay empty, and a missing
or empty `persons` array yields an entirely empty profile with no error. -/
theorem claim_C7 (pf : List (String × Json)) (rest : List Json)
    (fs : List (String × Json)) :
    (jsonLookup fs "persons" = some (.arr (Json.obj pf :: rest)) →
      ExtractProfileData (.obj fs)
        = some { user := strField pf "displayName",
                 linkedInUrl := strField pf "linkedInUrl",
                 location := strField pf "location",
                 connectionCount := connField pf })
    ∧ (jsonLookup fs "persons" = none → ExtractProfileData (.obj fs) = some {})
    ∧ (jsonLookup fs "persons" = some (.arr []) →
        ExtractProfileData (.obj fs) = some {})
    ∧ (jsonLookup pf "displayName" = none → strField pf "displayName" = "")
    ∧ (jsonLookup pf "linkedInUrl" = none → strField pf "linkedInUrl" = "")
    ∧ (jsonLookup pf "location" = none → strField pf "location" = "")
    ∧ (jsonLookup pf "connectionCount" = none → connField pf = "") := by
  refine ⟨?_, ?_, ?_, ?_, ?_, ?_, ?_⟩
  · intro h
    simp [ExtractProfileData, extractTop, h, extractPerson]
  · intro h
    simp [ExtractProfileData, extractTop, h]
  · intro h
    simp [ExtractProfileData, extractTop, h]
  · intro h; simp [strField, h]
  · intro h; simp [strField, h]
  · intro h; simp [strField, h]
  · intro h; simp [connField, h]

/-- Witness for C7 at the concrete body of the spec's round-trip law
(`persons[0].displayName == "A"`, `linkedInUrl == "B"`). -/
theorem claim_C7_witness :
    ExtractProfileData (.obj [("persons",
        .arr [.obj [("displayName", .str "A"), ("linkedInUrl", .str "B")]])])
      = some { user := "A", linkedInUrl := "B", location := "",
               connectionCount := "" } := by
  have h := (claim_C7 [("displayName", .str "A"), ("linkedInUrl", .str "B")] []
    [("persons", .arr [.obj [("displayName", .str "A"), ("linkedInUrl", .str "B")]])]).1
    rfl
  rw [h]
  rfl

/-- C10: a JSON-number connectionCount `v` is stored as the decimal string
of `v` truncated toward zero, a JSON string is copied verbatim, and any
other JSON type leaves the field empty.  The truncation is characterised
order-theoretically: it is the integer of the same sign lying within one of
`v`, on the zero side. -/
theorem claim_C10 (pf : List (String × Json)) (q : Rat) (s : String) :
    (jsonLookup pf "connectionCount" = some (.num q) →
      connField pf = toString (floatToInt q))
    ∧ (jsonLookup pf "connectionCount" = some (.str s) → connField pf = s)
    ∧ (jsonLookup pf "connectionCount" = none → connField pf = "")
    ∧ (∀ j, jsonLookup pf "connectionCount" = some j →
        (∀ r, j ≠ Json.num r) → (∀ t, j ≠ Json.str t) → connField pf = "")
    ∧ (0 ≤ q → ((floatToInt q : Rat) ≤ q ∧ q < (floatToInt q : Rat) + 1
        ∧ 0 ≤ floatToInt q))
    ∧ (q < 0 → (q ≤ (floatToInt q : Rat) ∧ (floatToInt q : Rat) < q + 1
        ∧ floatToInt q ≤ 0)) := by
  refine ⟨?_, ?_, ?_, ?_, ?_, ?_⟩
  · intro h; simp [connField, h]
  · intro h; simp [connField, h]
  · intro h; simp [connField, h]
  · intro j h hq hs
    simp only [connField, h]
    cases j with
    | num r => exact absurd rfl (hq r)
    | str t => exact absurd rfl (hs t)
    | null => rfl
    | bool b => rfl
    | arr es => rfl
    | obj fs => rfl
  · intro hq
    unfold floatToInt
    rw [if_pos hq]
    exact ⟨Int.floor_le q, Int.lt_floor_add_one q, Int.floor_nonneg.2 hq⟩
  · intro hq
    unfold floatToInt
    rw [if_neg (by exact not_le.2 hq)]
    have h1 : (↑⌊-q⌋ : Rat) ≤ -q := Int.floor_le (-q)
    have h2 : -q < (↑⌊-q⌋ : Rat) + 1 := Int.lt_floor_add_one (-q)
    have h3 : (0 : Int) ≤ ⌊-q⌋ := Int.floor_nonneg.2 (by linarith)
    refine ⟨?_, ?_, by omega⟩
    · push_cast
      linarith
    · push_cast
      linarith

/-- Witness for C10 at `connectionCount = 3.9`: stored as `"3"`. -/
theorem claim_C10_witness :
    connField [("connectionCount", Json.num (mkRat 39 10))]
      = toString (floatToInt (mkRat 39 10))
    ∧ toString (floatToInt (mkRat 39 10)) = "3" :=
  ⟨(claim_C10 [("connectionCount", Json.num (mkRat 39 10))] (mkRat 39 10) "").1 rfl,
   by decide⟩

/-! ## Phase 2 retry sweep (C8) -/

theorem retryPhaseTrace_length_le (env : Nat → RetryIterEnv) :
    ∀ fuel i, (retryPhaseTrace env fuel i).length ≤ fuel := by
  intro fuel
  induction fuel with
  | zero => intro i; simp [retryPhaseTrace]
  | succ f ih =>
    intro i
    unfold retryPhaseTrace
    split
    · simp
    · split
      · simp
      · split
        · simp
        · split
          · simp
          · have := ih (i + 1)
            simp only [List.length_cons]
            omega

theorem retryPhaseTrace_mem_loaded (env : Nat → RetryIterEnv) :
    ∀ fuel i j, j ∈ retryPhaseTrace env fuel i → (env j).loaded ≠ [] := by
  intro fuel
  induction fuel with
  | zero => intro i j h; simp [retryPhaseTrace] at h
  | succ f ih =>
    intro i j h
    unfold retryPhaseTrace at h
    split at h
    · simp at h
    · next hload =>
      split at h
      · simp at h
      · split at h
        · simp at h
          subst h
          intro habs
          exact hload (by simp [habs])
        · split at h
          · simp at h
            subst h
            intro habs
            exact hload (by simp [habs])
          · rcases List.mem_cons.1 h with rfl | h'
            · intro habs
              exact hload (by simp [habs])
            · exact ih (i + 1) j h'

theorem retryPhaseTrace_mem_ge (env : Nat → RetryIterEnv) :
    ∀ fuel i j, j ∈ retryPhaseTrace env fuel i → i ≤ j := by
  intro fuel
  induction fuel with
  | zero => intro i j h; simp [retryPhaseTrace] at h
  | succ f ih =>
    intro i j h
    unfold retryPhaseTrace at h
    by_cases h1 : (env i).loaded.length = 0
    · rw [if_pos h1] at h; simp at h
    · rw [if_neg h1] at h
      by_cases h2 : (!(env i).tokensOk) = true
      · rw [if_pos h2] at h; simp at h
      · rw [if_neg h2] at h
        by_cases h3 : (env i).loadedAfter.length = 0
        · rw [if_pos h3] at h; simp at h; omega
        · rw [if_neg h3] at h
          by_cases h4 : (env i).loadedAfter.length ≥ (env i).loaded.length
          · rw [if_pos h4] at h; simp at h; omega
          · rw [if_neg h4] at h
            rcases List.mem_cons.1 h with rfl | h'
            · omega
            · have := ih (i + 1) j h'
              omega

theorem retryPhaseTrace_progress (env : Nat → RetryIterEnv) :
    ∀ fuel i a b, a ∈ retryPhaseTrace env fuel i →
      b ∈ retryPhaseTrace env fuel i → a < b →
      (env a).loadedAfter.length < (env a).loaded.length
      ∧ (env a).loadedAfter ≠ [] := by
  intro fuel
  induction fuel with
  | zero => intro i a b ha _ _; simp [retryPhaseTrace] at ha
  | succ f ih =>
    intro i a b ha hb hab
    unfold retryPhaseTrace at ha hb
    by_cases h1 : (env i).loaded.length = 0
    · rw [if_pos h1] at ha; simp at ha
    · rw [if_neg h1] at ha hb
      by_cases h2 : (!(env i).tokensOk) = true
      · rw [if_pos h2] at ha; simp at ha
      · rw [if_neg h2] at ha hb
        by_cases h3 : (env i).loadedAfter.length = 0
        · rw [if_pos h3] at ha hb
          simp at ha hb
          omega
        · rw [if_neg h3] at ha hb
          by_cases h4 : (env i).loadedAfter.length ≥ (env i).loaded.length
          · rw [if_pos h4] at ha hb
            simp at ha hb
            omega
          · rw [if_neg h4] at ha hb
            rcases List.mem_cons.1 ha with rfl | ha'
            · refine ⟨by omega, ?_⟩
              intro habs
              exact h3 (by simp [habs])
            · rcases List.mem_cons.1 hb with rfl | hb'
              · have := retryPhaseTrace_mem_ge env f (b + 1) a ha'
                omega
              · exact ih (i + 1) a b ha' hb' hab

/-- C8: the phase-2 retry sweep runs at most 7 iterations; an iteration
only runs when the remaining list read at its top is non-empty, and the
sweep continues past an iteration only when that iteration strictly shrank
the remaining list to a non-empty rest (otherwise it stops there). -/
theorem claim_C8 (env : Nat → RetryIterEnv) :
    (retryFailedEmails env).length ≤ 7
    ∧ (∀ j ∈ retryFailedEmails env, (env j).loaded ≠ [])
    ∧ (∀ a b, a ∈ retryFailedEmails env → b ∈ retryFailedEmails env → a < b →
        (env a).loadedAfter.length < (env a).loaded.length
        ∧ (env a).loadedAfter ≠ []) :=
  ⟨retryPhaseTrace_length_le env 7 1,
   fun j hj => retryPhaseTrace_mem_loaded env 7 1 j hj,
   fun a b ha hb hab => retryPhaseTrace_progress env 7 1 a b ha hb hab⟩

/-- Witness for C8 on a concrete environment that shrinks the remaining
list by one email per iteration. -/
theorem claim_C8_witness :
    (retryFailedEmails (fun i =>
        { loaded := List.replicate (10 - i) "e", tokensOk := true,
          loadedAfter := List.replicate (9 - i) "e" })).length ≤ 7
    ∧ (List.replicate (9 - 1) "e").length < (List.replicate (10 - 1) "e").length := by
  have h := claim_C8 (fun i =>
    { loaded := List.replicate (10 - i) "e", tokensOk := true,
      loadedAfter := List.replicate (9 - i) "e" })
  exact ⟨h.1, (h.2.2 1 2 (by decide) (by decide) (by decide)).1⟩

/-! ## Shutdown persistence (C9) -/

/-- Counterexample to C9 as stated: with one unprocessed email the
computed remaining list is non-empty, yet after the signal handler runs the
emails-file state is unchanged (and in particular does not record the
list), because `WriteEmailsToFile` is a no-op. -/
theorem claim_C9_counterexample :
    computeRemainingEmails
        { withData := [], withoutData := [], failedEmails := [],
          permanentFailed := [], totalEmails := ["a@x.com"] }
      = ["a@x.com"]
    ∧ (handleShutdownSignal
        { withData := [], withoutData := [], failedEmails := [],
          permanentFailed := [], totalEmails := ["a@x.com"] } [] 60).fsAfter
      = [] := by
  constructor
  · rfl
  · rfl

/-- C9 (amended): on SIGINT/SIGTERM the handler sets the atomic
`shutdown_requested` flag to 1, invokes `SaveStateOnShutdown` (which
computes the remaining-email list but whose `WriteEmailsToFile` call is a
no-op, persistence being delegated to the database), sleeps the configured
duration and exits — leaving the emails-file state unchanged. -/
theorem claim_C9_amended (st : ShutdownState) (fs : List String) (d : Nat) :
    handleShutdownSignal st fs d
      = { shutdownFlag := 1, fsAfter := fs, sleptFor := d, exited := true } := by
  unfold handleShutdownSignal saveStateOnShutdown writeEmailsToFile
  split <;> rfl

end LinkedinCrawler
